import Mathlib

/-!
Verification of `contrib/asmap/asmap_node_diff.py`.

The script loads a JSON list of node-address records, keeps the ipv4/ipv6
ones, loads two asmap snapshots, and for a set of recency horizons counts
how many nodes' AS classification differs between the snapshots.

The asmap snapshot and the address-to-key derivation
(`net_to_prefix(ipaddress.ip_network(addr))`) live outside this file's
sources (`asmap.py` / the `ipaddress` stdlib); the script uses them only as
black boxes, so they are modelled as abstract function parameters:
`Snapshot` is the `lookup` capability, and `toPfx : String → Option Pfx`
is the address-to-key derivation, `none` standing for a parse failure
(Python `ValueError`), which the script does not catch.
-/

namespace AsmapDiff

/-- The `Node` dataclass of the script: last-seen timestamp, address, port. -/
structure Node where
  last_seen : Int
  address : String
  port : Int
deriving DecidableEq

/-- Abstract lookup key produced by the external address-to-key derivation. -/
abbrev Pfx := Nat

/-- An asmap snapshot, used by the script only through `lookup`:
`none` is the "unknown AS" answer, `some a` the AS number. -/
abbrev Snapshot := Pfx → Option Nat

/-- Error raised while diffing: the address of a node could not be parsed
(`ipaddress.ip_network` raises `ValueError`, uncaught by the script). -/
inductive DiffError where
  | invalidAddress (addr : String)
deriving DecidableEq

/-- The inner loop of `compare_asmaps` for one threshold: walk the node
list, skip nodes with `last_seen < thres_epoch`, count the rest in
`nodes_total`, derive the lookup key, and count in `nodes_changed` the
nodes whose lookups in the two snapshots differ.  An unparseable address
aborts with an error, as the uncaught Python exception does. -/
def tallyNodes (toPfx : String → Option Pfx) (asmap_prev asmap_cur : Snapshot)
    (thres_epoch : Int) :
    List Node → Nat → Nat → Except DiffError (Nat × Nat)
  | [], nodes_total, nodes_changed => .ok (nodes_total, nodes_changed)
  | node :: rest, nodes_total, nodes_changed =>
    if node.last_seen < thres_epoch then
      tallyNodes toPfx asmap_prev asmap_cur thres_epoch rest nodes_total nodes_changed
    else
      match toPfx node.address with
      | none => .error (.invalidAddress node.address)
      | some p =>
        if asmap_prev p ≠ asmap_cur p then
          tallyNodes toPfx asmap_prev asmap_cur thres_epoch rest
            (nodes_total + 1) (nodes_changed + 1)
        else
          tallyNodes toPfx asmap_prev asmap_cur thres_epoch rest
            (nodes_total + 1) nodes_changed

/-- The `thresholds` dict of `compare_asmaps`, in insertion order. -/
def thresholds (epoch_now : Int) : List (String × Int) :=
  [("all", 0),
   ("last week", epoch_now - 7 * 24 * 60 * 60),
   ("last day", epoch_now - 24 * 60 * 60),
   ("last hour", epoch_now - 60 * 60)]

/-- One printed report line.  `changed` and `share` are `none` when the
line carries only `total` (the `nodes_total == 0` branch); `share` holds
the exact percentage `100 * changed / total` that the script formats. -/
structure ReportLine where
  horizon : String
  total : Nat
  changed : Option Nat
  share : Option ℚ
deriving DecidableEq

/-- The per-horizon printing of `compare_asmaps`: when `nodes_total == 0`
only the total is printed (no division); otherwise the changed count and
the share `100 * nodes_changed / nodes_total` are printed as well. -/
def mkReportLine (thres_name : String) (nodes_total nodes_changed : Nat) :
    ReportLine :=
  if nodes_total = 0 then
    ⟨thres_name, nodes_total, none, none⟩
  else
    ⟨thres_name, nodes_total, some nodes_changed,
      some (100 * ((nodes_changed : ℚ) / (nodes_total : ℚ)))⟩

/-- The horizon loop of `compare_asmaps`: one report line per threshold,
in dict order; an error while tallying aborts the run, keeping the lines
already printed and producing none for the remaining horizons. -/
def runHorizons (toPfx : String → Option Pfx) (asmap_prev asmap_cur : Snapshot)
    (nodes : List Node) :
    List (String × Int) → List ReportLine × Option DiffError
  | [] => ([], none)
  | (thres_name, thres_epoch) :: rest =>
    match tallyNodes toPfx asmap_prev asmap_cur thres_epoch nodes 0 0 with
    | .error e => ([], some e)
    | .ok (t, c) =>
      let r := runHorizons toPfx asmap_prev asmap_cur nodes rest
      (mkReportLine thres_name t c :: r.1, r.2)

/-- `compare_asmaps(asmap_prev, asmap_cur, nodes, age=0)`.  The script
takes `epoch_now` from the wall clock; here it is an explicit argument.
The `age` parameter is declared by the script but never used (its
filtering is commented out). -/
def compare_asmaps (toPfx : String → Option Pfx) (asmap_prev asmap_cur : Snapshot)
    (nodes : List Node) (age : Int) (epoch_now : Int) :
    List ReportLine × Option DiffError :=
  runHorizons toPfx asmap_prev asmap_cur nodes (thresholds epoch_now)

/-- One record of the node-address JSON file, with the four fields the
script reads; `none` marks a missing key (Python `KeyError`). -/
structure AddrEntry where
  network : Option String
  address : Option String
  port : Option Int
  time : Option Int
deriving DecidableEq

/-- Loader failure: the file is not valid JSON, or an entry lacks a key
the script reads (both surface as uncaught exceptions). -/
inductive LoadError where
  | malformedInput
deriving DecidableEq

/-- The entry loop of `get_clearnet_nodes`: skip entries whose `network`
is not ipv4/ipv6; build a `Node` from `time`, `address`, `port` for the
rest; a missing key aborts. -/
def buildNodes : List AddrEntry → Except LoadError (List Node)
  | [] => .ok []
  | entry :: rest =>
    match entry.network with
    | none => .error .malformedInput
    | some net =>
      if net ∉ ["ipv4", "ipv6"] then
        buildNodes rest
      else
        match entry.time, entry.address, entry.port with
        | some t, some a, some p =>
          match buildNodes rest with
          | .error e => .error e
          | .ok nodes => .ok (Node.mk t a p :: nodes)
        | _, _, _ => .error .malformedInput

/-- `get_clearnet_nodes`: `none` input models a file that `json.load`
rejects; otherwise the parsed list of entries is scanned. -/
def get_clearnet_nodes (data : Option (List AddrEntry)) :
    Except LoadError (List Node) :=
  match data with
  | none => .error .malformedInput
  | some entries => buildNodes entries

/-- A node passes the horizon filter: the negation of the script's
`node.last_seen < thres_epoch: continue` test. -/
def qualifies (thres_epoch : Int) (node : Node) : Bool :=
  decide (thres_epoch ≤ node.last_seen)

/-- The script's change test for one node: the lookup key's answers in
the two snapshots differ (`false` when the address does not parse, a case
the tally turns into an abort instead). -/
def lookupChanged (toPfx : String → Option Pfx)
    (asmap_prev asmap_cur : Snapshot) (node : Node) : Bool :=
  match toPfx node.address with
  | some p => decide (asmap_prev p ≠ asmap_cur p)
  | none => false

/-- If the tally of a node list succeeds, every node passing the horizon
filter had a parseable address. -/
theorem tallyNodes_ok_parses {toPfx : String → Option Pfx}
    {asmap_prev asmap_cur : Snapshot} {thres_epoch : Int} {ns : List Node} :
    ∀ {t c : Nat} {r : Nat × Nat},
      tallyNodes toPfx asmap_prev asmap_cur thres_epoch ns t c = .ok r →
      ∀ n ∈ ns, qualifies thres_epoch n → (toPfx n.address).isSome := by
  induction ns with
  | nil => intro t c r h n hn; simp at hn
  | cons node rest ih =>
    intro t c r h n hn hq
    simp only [tallyNodes] at h
    rcases List.mem_cons.mp hn with rfl | hn2
    · by_cases hlt : n.last_seen < thres_epoch
      · exfalso
        simp only [qualifies, decide_eq_true_eq] at hq
        omega
      · rw [if_neg hlt] at h
        cases hpf : toPfx n.address with
        | none => rw [hpf] at h; exact absurd h (by simp)
        | some p => simp
    · by_cases hlt : node.last_seen < thres_epoch
      · rw [if_pos hlt] at h
        exact ih h n hn2 hq
      · rw [if_neg hlt] at h
        cases hpf : toPfx node.address with
        | none => rw [hpf] at h; exact absurd h (by simp)
        | some p =>
          simp only [hpf] at h
          by_cases hne : asmap_prev p ≠ asmap_cur p
          · rw [if_pos hne] at h; exact ih h n hn2 hq
          · rw [if_neg hne] at h; exact ih h n hn2 hq

/-- Characterization of the tally loop: when every node passing the
horizon filter has a parseable address, the loop returns the filter count
as total and the count of filtered nodes with differing lookups as
changed, each on top of its accumulator. -/
theorem tallyNodes_eq_counts {toPfx : String → Option Pfx}
    {asmap_prev asmap_cur : Snapshot} {thres_epoch : Int} {ns : List Node}
    (hp : ∀ n ∈ ns, qualifies thres_epoch n → (toPfx n.address).isSome) :
    ∀ t c : Nat,
      tallyNodes toPfx asmap_prev asmap_cur thres_epoch ns t c =
        .ok (t + ns.countP (qualifies thres_epoch),
             c + ns.countP fun n =>
               qualifies thres_epoch n &&
                 lookupChanged toPfx asmap_prev asmap_cur n) := by
  induction ns with
  | nil => intro t c; simp [tallyNodes]
  | cons node rest ih =>
    intro t c
    have hp2 : ∀ n ∈ rest, qualifies thres_epoch n → (toPfx n.address).isSome :=
      fun n hn => hp n (List.mem_cons_of_mem _ hn)
    by_cases hlt : node.last_seen < thres_epoch
    · have hqf : ¬ qualifies thres_epoch node := by
        simp only [qualifies, decide_eq_true_eq]
        omega
      have hqf2 : ¬ (qualifies thres_epoch node &&
          lookupChanged toPfx asmap_prev asmap_cur node) = true := by
        simp only [Bool.and_eq_true]
        exact fun hand => hqf hand.1
      simp only [tallyNodes, if_pos hlt]
      rw [ih hp2 t c]
      rw [List.countP_cons_of_neg (qualifies thres_epoch) _ hqf,
        List.countP_cons_of_neg
          (fun n => qualifies thres_epoch n &&
            lookupChanged toPfx asmap_prev asmap_cur n) _ hqf2]
    · have hq : qualifies thres_epoch node := by
        simp only [qualifies, decide_eq_true_eq]
        omega
      have hs : (toPfx node.address).isSome :=
        hp node (List.mem_cons_self node rest) hq
      obtain ⟨p, hpf⟩ := Option.isSome_iff_exists.mp hs
      simp only [tallyNodes, if_neg hlt, hpf]
      by_cases hne : asmap_prev p ≠ asmap_cur p
      · have hch : (qualifies thres_epoch node &&
            lookupChanged toPfx asmap_prev asmap_cur node) = true := by
          simp [hq, lookupChanged, hpf, hne]
        rw [if_pos hne, ih hp2]
        rw [List.countP_cons_of_pos (qualifies thres_epoch) _ hq,
          List.countP_cons_of_pos
            (fun n => qualifies thres_epoch n &&
              lookupChanged toPfx asmap_prev asmap_cur n) _ hch]
        simp only [Except.ok.injEq, Prod.mk.injEq]
        omega
      · have hch : ¬ (qualifies thres_epoch node &&
            lookupChanged toPfx asmap_prev asmap_cur node) = true := by
          simp [lookupChanged, hpf, hne]
        rw [if_neg hne, ih hp2]
        rw [List.countP_cons_of_pos (qualifies thres_epoch) _ hq,
          List.countP_cons_of_neg
            (fun n => qualifies thres_epoch n &&
              lookupChanged toPfx asmap_prev asmap_cur n) _ hch]
        simp only [Except.ok.injEq, Prod.mk.injEq]
        exact ⟨by omega, trivial⟩

/-- Every emitted report line is the line of one of the supplied
thresholds, built from a successful tally of the node list. -/
theorem mem_runHorizons {toPfx : String → Option Pfx}
    {asmap_prev asmap_cur : Snapshot} {nodes : List Node} :
    ∀ {ts : List (String × Int)} {line : ReportLine},
      line ∈ (runHorizons toPfx asmap_prev asmap_cur nodes ts).1 →
      ∃ thres_name thres_epoch t c,
        (thres_name, thres_epoch) ∈ ts ∧
        tallyNodes toPfx asmap_prev asmap_cur thres_epoch nodes 0 0 = .ok (t, c) ∧
        line = mkReportLine thres_name t c := by
  intro ts
  induction ts with
  | nil => intro line h; simp [runHorizons] at h
  | cons hd rest ih =>
    intro line h
    obtain ⟨thres_name, thres_epoch⟩ := hd
    simp only [runHorizons] at h
    cases htal : tallyNodes toPfx asmap_prev asmap_cur thres_epoch nodes 0 0 with
    | error e => rw [htal] at h; simp at h
    | ok tc =>
      obtain ⟨t, c⟩ := tc
      rw [htal] at h
      simp only [List.mem_cons] at h
      rcases h with rfl | h2
      · exact ⟨thres_name, thres_epoch, t, c, List.mem_cons_self _ _, htal, rfl⟩
      · obtain ⟨n2, e2, t2, c2, hmem, htal2, hline⟩ := ih h2
        exact ⟨n2, e2, t2, c2, List.mem_cons_of_mem _ hmem, htal2, hline⟩

/-- If some node of the list passes the filter of the threshold at
position `i` but its address does not parse, the horizon loop aborts with
an error no later than horizon `i`: at most the first `i` lines appear. -/
theorem runHorizons_aborts {toPfx : String → Option Pfx}
    {asmap_prev asmap_cur : Snapshot} {nodes : List Node} {n : Node}
    (hn : n ∈ nodes) (hpf : toPfx n.address = none) :
    ∀ (ts : List (String × Int)) (i : Nat) (hi : i < ts.length),
      (ts.get ⟨i, hi⟩).2 ≤ n.last_seen →
      ((runHorizons toPfx asmap_prev asmap_cur nodes ts).2).isSome ∧
        (runHorizons toPfx asmap_prev asmap_cur nodes ts).1.length ≤ i := by
  intro ts
  induction ts with
  | nil => intro i hi; simp at hi
  | cons hd rest ih =>
    intro i hi hq
    obtain ⟨thres_name, thres_epoch⟩ := hd
    cases htal : tallyNodes toPfx asmap_prev asmap_cur thres_epoch nodes 0 0 with
    | error e =>
      simp only [runHorizons, htal]
      exact ⟨rfl, Nat.zero_le i⟩
    | ok tc =>
      obtain ⟨t, c⟩ := tc
      cases i with
      | zero =>
        exfalso
        have hqual : qualifies thres_epoch n := by
          simp only [qualifies, decide_eq_true_eq]
          exact hq
        have hsome := tallyNodes_ok_parses htal n hn hqual
        rw [hpf] at hsome
        simp at hsome
      | succ j =>
        have hj : j < rest.length := by simpa using hi
        have hq2 : (rest.get ⟨j, hj⟩).2 ≤ n.last_seen := hq
        obtain ⟨h1, h2⟩ := ih j hj hq2
        simp only [runHorizons, htal]
        refine ⟨h1, ?_⟩
        simpa using Nat.succ_le_succ h2

/-- C1: for every horizon threshold, the tally counts as total the nodes
whose `last_seen` meets the threshold and as changed those of them whose
derived lookup key gets different answers from the two snapshots; nodes
below the threshold contribute to neither count.  (The hypothesis states
that every node passing the filter has a parseable address, the case in
which the loop completes.) -/
theorem horizon_counts_correct (toPfx : String → Option Pfx)
    (asmap_prev asmap_cur : Snapshot) (thres_epoch : Int) (nodes : List Node)
    (hp : ∀ n ∈ nodes, qualifies thres_epoch n → (toPfx n.address).isSome) :
    tallyNodes toPfx asmap_prev asmap_cur thres_epoch nodes 0 0 =
      .ok (nodes.countP (qualifies thres_epoch),
        nodes.countP fun n =>
          qualifies thres_epoch n &&
            lookupChanged toPfx asmap_prev asmap_cur n) := by
  simpa using tallyNodes_eq_counts hp 0 0

theorem horizon_counts_correct_witness :
    (∀ n ∈ [Node.mk 100 "1.0.0.1" 8333, Node.mk (-5) "bad" 1],
      qualifies 0 n →
        ((fun s => if s = "1.0.0.1" then some 3 else none) n.address).isSome) ∧
    tallyNodes (fun s => if s = "1.0.0.1" then some 3 else none)
        (fun _ => some 1) (fun p => if p = 3 then some 2 else some 1) 0
        [Node.mk 100 "1.0.0.1" 8333, Node.mk (-5) "bad" 1] 0 0 =
      .ok (List.countP (qualifies 0)
          [Node.mk 100 "1.0.0.1" 8333, Node.mk (-5) "bad" 1],
        List.countP
          (fun n => qualifies 0 n &&
            lookupChanged (fun s => if s = "1.0.0.1" then some 3 else none)
              (fun _ => some 1) (fun p => if p = 3 then some 2 else some 1) n)
          [Node.mk 100 "1.0.0.1" 8333, Node.mk (-5) "bad" 1]) :=
  ⟨by decide,
    horizon_counts_correct (fun s => if s = "1.0.0.1" then some 3 else none)
      (fun _ => some 1) (fun p => if p = 3 then some 2 else some 1) 0
      [Node.mk 100 "1.0.0.1" 8333, Node.mk (-5) "bad" 1] (by decide)⟩

/-- C3: in every report line the diff engine emits, the changed count is
between 0 and the total (inclusive). -/
theorem changed_le_total (toPfx : String → Option Pfx)
    (asmap_prev asmap_cur : Snapshot) (nodes : List Node)
    (age epoch_now : Int) (line : ReportLine)
    (hline : line ∈
      (compare_asmaps toPfx asmap_prev asmap_cur nodes age epoch_now).1) :
    ∀ c, line.changed = some c → 0 ≤ c ∧ c ≤ line.total := by
  simp only [compare_asmaps] at hline
  obtain ⟨thres_name, thres_epoch, t, c, _, htal, rfl⟩ := mem_runHorizons hline
  have hp := tallyNodes_ok_parses htal
  have heq :=
    @tallyNodes_eq_counts toPfx asmap_prev asmap_cur thres_epoch nodes hp 0 0
  rw [htal] at heq
  simp only [Except.ok.injEq, Prod.mk.injEq, Nat.zero_add] at heq
  obtain ⟨ht, hc⟩ := heq
  have hmono : c ≤ t := by
    rw [ht, hc]
    exact List.countP_mono_left fun x _ hx => (Bool.and_eq_true_iff.mp hx).1
  intro c0 hc0
  unfold mkReportLine at hc0 ⊢
  by_cases h0 : t = 0
  · rw [if_pos h0] at hc0
    exact absurd hc0 (by simp)
  · rw [if_neg h0] at hc0 ⊢
    simp only [Option.some.injEq] at hc0
    subst hc0
    exact ⟨Nat.zero_le _, by simpa using hmono⟩

theorem changed_le_total_witness :
    (ReportLine.mk "all" 1 (some 1) (some (100 * ((1 : ℚ) / (1 : ℚ)))) ∈
      (compare_asmaps (fun _ => some 0) (fun _ => none) (fun _ => some 5)
        [Node.mk 0 "x" 0] 0 0).1) ∧
    (∀ c, (ReportLine.mk "all" 1 (some 1)
        (some (100 * ((1 : ℚ) / (1 : ℚ))))).changed = some c →
      0 ≤ c ∧ c ≤ (ReportLine.mk "all" 1 (some 1)
        (some (100 * ((1 : ℚ) / (1 : ℚ))))).total) := by
  have hmem : ReportLine.mk "all" 1 (some 1) (some (100 * ((1 : ℚ) / (1 : ℚ)))) ∈
      (compare_asmaps (fun _ => some 0) (fun _ => none) (fun _ => some 5)
        [Node.mk 0 "x" 0] 0 0).1 := by
    simp [compare_asmaps, runHorizons, thresholds, tallyNodes, mkReportLine]
  exact ⟨hmem,
    changed_le_total (fun _ => some 0) (fun _ => none) (fun _ => some 5)
      [Node.mk 0 "x" 0] 0 0 _ hmem⟩

/-- C2: an emitted report line carries the changed count and the share
exactly when its total is positive; with a zero total neither field is
present (the share is never computed, so no division happens), and when
present the share equals `100 * changed / total`. -/
theorem report_line_fields (toPfx : String → Option Pfx)
    (asmap_prev asmap_cur : Snapshot) (nodes : List Node)
    (age epoch_now : Int) (line : ReportLine)
    (hline : line ∈
      (compare_asmaps toPfx asmap_prev asmap_cur nodes age epoch_now).1) :
    ((line.changed.isSome ∧ line.share.isSome) ↔ 0 < line.total) ∧
    ∀ c, line.changed = some c →
      line.share = some (100 * ((c : ℚ) / (line.total : ℚ))) := by
  simp only [compare_asmaps] at hline
  obtain ⟨thres_name, thres_epoch, t, c, _, htal, rfl⟩ := mem_runHorizons hline
  unfold mkReportLine
  by_cases h0 : t = 0
  · rw [if_pos h0]
    exact ⟨by simp [h0], by simp⟩
  · rw [if_neg h0]
    refine ⟨by simp [Nat.pos_of_ne_zero h0], ?_⟩
    intro c0 hc0
    simp only [Option.some.injEq] at hc0
    subst hc0
    rfl

theorem report_line_fields_witness :
    (ReportLine.mk "all" 1 (some 0) (some (100 * ((0 : ℚ) / (1 : ℚ)))) ∈
      (compare_asmaps (fun _ => some 0) (fun _ => none) (fun _ => none)
        [Node.mk 0 "x" 0] 0 0).1) ∧
    ((((ReportLine.mk "all" 1 (some 0)
          (some (100 * ((0 : ℚ) / (1 : ℚ))))).changed.isSome ∧
        (ReportLine.mk "all" 1 (some 0)
          (some (100 * ((0 : ℚ) / (1 : ℚ))))).share.isSome) ↔
      0 < (ReportLine.mk "all" 1 (some 0)
          (some (100 * ((0 : ℚ) / (1 : ℚ))))).total) ∧
    ∀ c, (ReportLine.mk "all" 1 (some 0)
        (some (100 * ((0 : ℚ) / (1 : ℚ))))).changed = some c →
      (ReportLine.mk "all" 1 (some 0)
        (some (100 * ((0 : ℚ) / (1 : ℚ))))).share =
        some (100 * ((c : ℚ) /
          ((ReportLine.mk "all" 1 (some 0)
            (some (100 * ((0 : ℚ) / (1 : ℚ))))).total : ℚ)))) := by
  have hmem : ReportLine.mk "all" 1 (some 0) (some (100 * ((0 : ℚ) / (1 : ℚ)))) ∈
      (compare_asmaps (fun _ => some 0) (fun _ => none) (fun _ => none)
        [Node.mk 0 "x" 0] 0 0).1 := by
    simp [compare_asmaps, runHorizons, thresholds, tallyNodes, mkReportLine]
  exact ⟨hmem,
    report_line_fields (fun _ => some 0) (fun _ => none) (fun _ => none)
      [Node.mk 0 "x" 0] 0 0 _ hmem⟩

/-- C4: horizon membership is monotonic in the threshold: with
`T2 ≤ T1`, the nodes passing the tighter threshold `T1` are a subset of
those passing `T2`, and both counts of the tighter horizon are at most
those of the wider one. -/
theorem horizon_monotone (toPfx : String → Option Pfx)
    (asmap_prev asmap_cur : Snapshot) (nodes : List Node) (T1 T2 : Int)
    (h21 : T2 ≤ T1) (t1 c1 t2 c2 : Nat)
    (h1 : tallyNodes toPfx asmap_prev asmap_cur T1 nodes 0 0 = .ok (t1, c1))
    (h2 : tallyNodes toPfx asmap_prev asmap_cur T2 nodes 0 0 = .ok (t2, c2)) :
    nodes.filter (qualifies T1) ⊆ nodes.filter (qualifies T2) ∧
      t1 ≤ t2 ∧ c1 ≤ c2 := by
  have himp : ∀ n : Node, qualifies T1 n → qualifies T2 n := by
    intro n h
    simp only [qualifies, decide_eq_true_eq] at h ⊢
    omega
  have hp2 := tallyNodes_ok_parses h2
  have hp1 : ∀ n ∈ nodes, qualifies T1 n → (toPfx n.address).isSome :=
    fun n hn hq => hp2 n hn (himp n hq)
  have e1 := @tallyNodes_eq_counts toPfx asmap_prev asmap_cur T1 nodes hp1 0 0
  have e2 := @tallyNodes_eq_counts toPfx asmap_prev asmap_cur T2 nodes hp2 0 0
  rw [h1] at e1
  rw [h2] at e2
  simp only [Except.ok.injEq, Prod.mk.injEq, Nat.zero_add] at e1 e2
  obtain ⟨ht1, hc1⟩ := e1
  obtain ⟨ht2, hc2⟩ := e2
  refine ⟨?_, ?_, ?_⟩
  · intro x hx
    rw [List.mem_filter] at hx ⊢
    exact ⟨hx.1, himp x hx.2⟩
  · rw [ht1, ht2]
    exact List.countP_mono_left fun x _ hx => himp x hx
  · rw [hc1, hc2]
    exact List.countP_mono_left fun x _ hx => by
      have h := Bool.and_eq_true_iff.mp hx
      exact Bool.and_eq_true_iff.mpr ⟨himp x h.1, h.2⟩

theorem horizon_monotone_witness :
    (0 : Int) ≤ 50 ∧
    tallyNodes (fun _ => some 0) (fun _ => some 1) (fun _ => some 2) 50
      [Node.mk 100 "a" 0, Node.mk 0 "b" 0] 0 0 = .ok (1, 1) ∧
    tallyNodes (fun _ => some 0) (fun _ => some 1) (fun _ => some 2) 0
      [Node.mk 100 "a" 0, Node.mk 0 "b" 0] 0 0 = .ok (2, 2) ∧
    (List.filter (qualifies 50) [Node.mk 100 "a" 0, Node.mk 0 "b" 0] ⊆
        List.filter (qualifies 0) [Node.mk 100 "a" 0, Node.mk 0 "b" 0] ∧
      1 ≤ 2 ∧ 1 ≤ 2) :=
  ⟨by decide, by rfl, by rfl,
    horizon_monotone (fun _ => some 0) (fun _ => some 1) (fun _ => some 2)
      [Node.mk 100 "a" 0, Node.mk 0 "b" 0] 50 0 (by decide) 1 1 2 2
      (by rfl) (by rfl)⟩

/-- C5: if the two snapshots agree on every lookup key, every report line
the diff engine emits has a changed count of zero. -/
theorem identical_snapshots_no_change (toPfx : String → Option Pfx)
    (asmap_prev asmap_cur : Snapshot) (nodes : List Node)
    (age epoch_now : Int)
    (hid : ∀ p, asmap_prev p = asmap_cur p) (line : ReportLine)
    (hline : line ∈
      (compare_asmaps toPfx asmap_prev asmap_cur nodes age epoch_now).1) :
    ∀ c, line.changed = some c → c = 0 := by
  simp only [compare_asmaps] at hline
  obtain ⟨thres_name, thres_epoch, t, c, _, htal, rfl⟩ := mem_runHorizons hline
  have hp := tallyNodes_ok_parses htal
  have heq :=
    @tallyNodes_eq_counts toPfx asmap_prev asmap_cur thres_epoch nodes hp 0 0
  rw [htal] at heq
  simp only [Except.ok.injEq, Prod.mk.injEq, Nat.zero_add] at heq
  obtain ⟨ht, hc⟩ := heq
  have hzero : c = 0 := by
    rw [hc]
    rw [List.countP_eq_zero]
    intro a ha
    simp only [Bool.and_eq_true, not_and]
    intro _
    unfold lookupChanged
    cases hpa : toPfx a.address with
    | none => simp
    | some p => simp [hid p]
  intro c0 hc0
  unfold mkReportLine at hc0
  by_cases h0 : t = 0
  · rw [if_pos h0] at hc0
    exact absurd hc0 (by simp)
  · rw [if_neg h0] at hc0
    simp only [Option.some.injEq] at hc0
    omega

theorem identical_snapshots_no_change_witness :
    (∀ p : Pfx, (fun _ => some 3 : Snapshot) p = (fun _ => some 3 : Snapshot) p) ∧
    (ReportLine.mk "all" 1 (some 0) (some (100 * ((0 : ℚ) / (1 : ℚ)))) ∈
      (compare_asmaps (fun _ => some 0) (fun _ => some 3) (fun _ => some 3)
        [Node.mk 0 "x" 0] 0 0).1) ∧
    ∀ c, (ReportLine.mk "all" 1 (some 0)
        (some (100 * ((0 : ℚ) / (1 : ℚ))))).changed = some c → c = 0 := by
  have hmem : ReportLine.mk "all" 1 (some 0) (some (100 * ((0 : ℚ) / (1 : ℚ)))) ∈
      (compare_asmaps (fun _ => some 0) (fun _ => some 3) (fun _ => some 3)
        [Node.mk 0 "x" 0] 0 0).1 := by
    simp [compare_asmaps, runHorizons, thresholds, tallyNodes, mkReportLine]
  exact ⟨fun _ => rfl, hmem,
    identical_snapshots_no_change (fun _ => some 0) (fun _ => some 3)
      (fun _ => some 3) [Node.mk 0 "x" 0] 0 0 (fun _ => rfl) _ hmem⟩

/-- C6: a node whose lookup key is unknown in both snapshots is counted
as unchanged (the two unknown answers compare equal), while a node whose
key is unknown in exactly one snapshot and mapped to an AS in the other
is counted as changed. -/
theorem unknown_comparison (toPfx : String → Option Pfx)
    (asmap_prev asmap_cur : Snapshot) (thres_epoch : Int) (node : Node)
    (p : Pfx) (hpf : toPfx node.address = some p)
    (hq : thres_epoch ≤ node.last_seen) :
    (asmap_prev p = none → asmap_cur p = none →
      tallyNodes toPfx asmap_prev asmap_cur thres_epoch [node] 0 0 =
        .ok (1, 0)) ∧
    (∀ a, asmap_prev p = none → asmap_cur p = some a →
      tallyNodes toPfx asmap_prev asmap_cur thres_epoch [node] 0 0 =
        .ok (1, 1)) ∧
    (∀ a, asmap_prev p = some a → asmap_cur p = none →
      tallyNodes toPfx asmap_prev asmap_cur thres_epoch [node] 0 0 =
        .ok (1, 1)) := by
  have hnlt : ¬ node.last_seen < thres_epoch := by omega
  refine ⟨fun h1 h2 => ?_, fun a h1 h2 => ?_, fun a h1 h2 => ?_⟩ <;>
    simp [tallyNodes, hnlt, hpf, h1, h2]

theorem unknown_comparison_witness :
    ((fun _ => some 7 : String → Option Pfx) (Node.mk 5 "x" 0).address =
      some 7) ∧
    (0 : Int) ≤ (Node.mk 5 "x" 0).last_seen ∧
    (((fun _ => none : Snapshot) 7 = none →
      (fun _ => none : Snapshot) 7 = none →
      tallyNodes (fun _ => some 7) (fun _ => none) (fun _ => none) 0
        [Node.mk 5 "x" 0] 0 0 = .ok (1, 0)) ∧
    (∀ a, (fun _ => none : Snapshot) 7 = none →
      (fun _ => none : Snapshot) 7 = some a →
      tallyNodes (fun _ => some 7) (fun _ => none) (fun _ => none) 0
        [Node.mk 5 "x" 0] 0 0 = .ok (1, 1)) ∧
    (∀ a, (fun _ => none : Snapshot) 7 = some a →
      (fun _ => none : Snapshot) 7 = none →
      tallyNodes (fun _ => some 7) (fun _ => none) (fun _ => none) 0
        [Node.mk 5 "x" 0] 0 0 = .ok (1, 1))) :=
  ⟨rfl, by decide,
    unknown_comparison (fun _ => some 7) (fun _ => none) (fun _ => none) 0
      (Node.mk 5 "x" 0) 7 rfl (by decide)⟩

/-- If the entry loop of the loader succeeds, every ipv4/ipv6 entry of
the input had all of the `time`, `address` and `port` keys. -/
theorem buildNodes_ok_fields :
    ∀ (entries : List AddrEntry) (ns : List Node),
      buildNodes entries = .ok ns →
      ∀ e ∈ entries, (e.network = some "ipv4" ∨ e.network = some "ipv6") →
        e.time.isSome ∧ e.address.isSome ∧ e.port.isSome := by
  intro entries
  induction entries with
  | nil => intro ns h e he; simp at he
  | cons entry rest ih =>
    intro ns h e he hret
    simp only [buildNodes] at h
    cases hnetv : entry.network with
    | none => rw [hnetv] at h; exact absurd h (by simp)
    | some net =>
      simp only [hnetv] at h
      by_cases hmem : net ∈ ["ipv4", "ipv6"]
      · rw [if_neg (not_not_intro hmem)] at h
        rcases List.mem_cons.mp he with rfl | he2
        · cases htv : e.time with
          | none => simp only [htv] at h; exact absurd h (by simp)
          | some tv =>
            cases hav : e.address with
            | none => simp only [htv, hav] at h; exact absurd h (by simp)
            | some av =>
              cases hpv : e.port with
              | none => simp only [htv, hav, hpv] at h; exact absurd h (by simp)
              | some pv => simp [htv, hav, hpv]
        · cases htv : entry.time with
          | none => simp only [htv] at h; exact absurd h (by simp)
          | some tv =>
            cases hav : entry.address with
            | none => simp only [htv, hav] at h; exact absurd h (by simp)
            | some av =>
              cases hpv : entry.port with
              | none => simp only [htv, hav, hpv] at h; exact absurd h (by simp)
              | some pv =>
                simp only [htv, hav, hpv] at h
                cases hrec : buildNodes rest with
                | error err => rw [hrec] at h; exact absurd h (by simp)
                | ok ns2 => exact ih ns2 hrec e he2 hret
      · rw [if_pos hmem] at h
        rcases List.mem_cons.mp he with rfl | he2
        · exfalso
          rcases hret with h4 | h6
          · rw [hnetv] at h4
            simp only [Option.some.injEq] at h4
            exact hmem (by simp [h4])
          · rw [hnetv] at h6
            simp only [Option.some.injEq] at h6
            exact hmem (by simp [h6])
        · exact ih ns h e he2 hret

/-- The entry loop keeps exactly the ipv4/ipv6 entries, in input order,
when every entry has a `network` key and every kept entry has the other
three keys. -/
theorem buildNodes_eq_filter :
    ∀ (entries : List AddrEntry),
      (∀ e ∈ entries, e.network.isSome) →
      (∀ e ∈ entries,
        (e.network = some "ipv4" ∨ e.network = some "ipv6") →
        e.time.isSome ∧ e.address.isSome ∧ e.port.isSome) →
      buildNodes entries =
        .ok ((entries.filter fun e =>
            decide (e.network = some "ipv4" ∨ e.network = some "ipv6")).map
          fun e => Node.mk (e.time.getD 0) (e.address.getD "") (e.port.getD 0)) := by
  intro entries
  induction entries with
  | nil => intro hnet hfields; simp [buildNodes]
  | cons entry rest ih =>
    intro hnet hfields
    have hnet2 : ∀ e ∈ rest, e.network.isSome :=
      fun e he => hnet e (List.mem_cons_of_mem _ he)
    have hfields2 : ∀ e ∈ rest,
        (e.network = some "ipv4" ∨ e.network = some "ipv6") →
        e.time.isSome ∧ e.address.isSome ∧ e.port.isSome :=
      fun e he => hfields e (List.mem_cons_of_mem _ he)
    obtain ⟨net, hnetv⟩ :=
      Option.isSome_iff_exists.mp (hnet entry (List.mem_cons_self _ _))
    by_cases hmem : net ∈ ["ipv4", "ipv6"]
    · have hret : entry.network = some "ipv4" ∨ entry.network = some "ipv6" := by
        simp only [List.mem_cons, List.not_mem_nil, or_false] at hmem
        rcases hmem with rfl | rfl
        · exact Or.inl hnetv
        · exact Or.inr hnetv
      obtain ⟨hts, has, hps⟩ := hfields entry (List.mem_cons_self _ _) hret
      obtain ⟨tv, htv⟩ := Option.isSome_iff_exists.mp hts
      obtain ⟨av, hav⟩ := Option.isSome_iff_exists.mp has
      obtain ⟨pv, hpv⟩ := Option.isSome_iff_exists.mp hps
      simp only [buildNodes, hnetv]
      rw [if_neg (not_not_intro hmem)]
      simp only [htv, hav, hpv, ih hnet2 hfields2]
      rw [List.filter_cons_of_pos (by simpa using hret)]
      simp [htv, hav, hpv]
    · have hretf : ¬ (entry.network = some "ipv4" ∨ entry.network = some "ipv6") := by
        rw [hnetv]
        simp only [Option.some.injEq]
        intro hc
        rcases hc with rfl | rfl
        · exact hmem (by simp)
        · exact hmem (by simp)
      simp only [buildNodes, hnetv]
      rw [if_pos hmem, ih hnet2 hfields2]
      rw [List.filter_cons_of_neg (by simpa using hretf)]

/-- C7: the loader keeps exactly the entries whose network is ipv4 or
ipv6, silently discards all others without error, and returns the kept
entries as nodes in their input order. -/
theorem clearnet_filter_order (entries : List AddrEntry)
    (hnet : ∀ e ∈ entries, e.network.isSome)
    (hfields : ∀ e ∈ entries,
      (e.network = some "ipv4" ∨ e.network = some "ipv6") →
      e.time.isSome ∧ e.address.isSome ∧ e.port.isSome) :
    get_clearnet_nodes (some entries) =
      .ok ((entries.filter fun e =>
          decide (e.network = some "ipv4" ∨ e.network = some "ipv6")).map
        fun e => Node.mk (e.time.getD 0) (e.address.getD "") (e.port.getD 0)) := by
  simp only [get_clearnet_nodes]
  exact buildNodes_eq_filter entries hnet hfields

theorem clearnet_filter_order_witness :
    (∀ e ∈ [AddrEntry.mk (some "ipv4") (some "1.1.1.1") (some 8333) (some 100),
        AddrEntry.mk (some "onion") none none none], e.network.isSome) ∧
    (∀ e ∈ [AddrEntry.mk (some "ipv4") (some "1.1.1.1") (some 8333) (some 100),
        AddrEntry.mk (some "onion") none none none],
      (e.network = some "ipv4" ∨ e.network = some "ipv6") →
      e.time.isSome ∧ e.address.isSome ∧ e.port.isSome) ∧
    get_clearnet_nodes
        (some [AddrEntry.mk (some "ipv4") (some "1.1.1.1") (some 8333) (some 100),
          AddrEntry.mk (some "onion") none none none]) =
      .ok ((List.filter
          (fun e =>
            decide (e.network = some "ipv4" ∨ e.network = some "ipv6"))
          [AddrEntry.mk (some "ipv4") (some "1.1.1.1") (some 8333) (some 100),
            AddrEntry.mk (some "onion") none none none]).map
        fun e => Node.mk (e.time.getD 0) (e.address.getD "") (e.port.getD 0)) :=
  ⟨by decide, by decide,
    clearnet_filter_order
      [AddrEntry.mk (some "ipv4") (some "1.1.1.1") (some 8333) (some 100),
        AddrEntry.mk (some "onion") none none none] (by decide) (by decide)⟩

/-- C8: the loader fails with the malformed-input error when the file is
not valid structured data or when a kept (ipv4/ipv6) entry is missing one
of the required keys; no node list is produced in either case. -/
theorem malformed_input_rejected (data : Option (List AddrEntry))
    (h : data = none ∨ ∃ entries, data = some entries ∧ ∃ e ∈ entries,
      (e.network = some "ipv4" ∨ e.network = some "ipv6") ∧
      (e.time = none ∨ e.address = none ∨ e.port = none)) :
    get_clearnet_nodes data = .error .malformedInput := by
  rcases h with rfl | ⟨entries, rfl, e, he, hret, hmiss⟩
  · rfl
  · simp only [get_clearnet_nodes]
    cases hb : buildNodes entries with
    | error err => cases err; rfl
    | ok ns =>
      exfalso
      obtain ⟨hts, has, hps⟩ := buildNodes_ok_fields entries ns hb e he hret
      rcases hmiss with hm | hm | hm
      · rw [hm] at hts; simp at hts
      · rw [hm] at has; simp at has
      · rw [hm] at hps; simp at hps

theorem malformed_input_rejected_witness :
    (some [AddrEntry.mk (some "ipv4") none none (some 5)] = none ∨
      ∃ entries,
        (some [AddrEntry.mk (some "ipv4") none none (some 5)] : Option _) =
          some entries ∧
        ∃ e ∈ entries, (e.network = some "ipv4" ∨ e.network = some "ipv6") ∧
          (e.time = none ∨ e.address = none ∨ e.port = none)) ∧
    get_clearnet_nodes (some [AddrEntry.mk (some "ipv4") none none (some 5)]) =
      .error .malformedInput := by
  have h : some [AddrEntry.mk (some "ipv4") none none (some 5)] = none ∨
      ∃ entries,
        (some [AddrEntry.mk (some "ipv4") none none (some 5)] : Option _) =
          some entries ∧
        ∃ e ∈ entries, (e.network = some "ipv4" ∨ e.network = some "ipv6") ∧
          (e.time = none ∨ e.address = none ∨ e.port = none) :=
    Or.inr ⟨[AddrEntry.mk (some "ipv4") none none (some 5)], rfl,
      AddrEntry.mk (some "ipv4") none none (some 5), List.mem_cons_self _ _,
      Or.inl rfl, Or.inr (Or.inl rfl)⟩
  exact ⟨h, malformed_input_rejected _ h⟩

/-- C9: the age parameter of the diff engine has no effect: with the same
snapshots, node list and reference time, any two age values produce the
same per-horizon results. -/
theorem age_has_no_effect (toPfx : String → Option Pfx)
    (asmap_prev asmap_cur : Snapshot) (nodes : List Node)
    (age1 age2 epoch_now : Int) :
    compare_asmaps toPfx asmap_prev asmap_cur nodes age1 epoch_now =
      compare_asmaps toPfx asmap_prev asmap_cur nodes age2 epoch_now := rfl

/-- C10: if a node passes the filter of the horizon at position `i` but
its address cannot be parsed, the diff engine aborts with the parse error
instead of skipping the node: no line is produced for that horizon or any
later one. -/
theorem unparseable_address_aborts (toPfx : String → Option Pfx)
    (asmap_prev asmap_cur : Snapshot) (nodes : List Node)
    (age epoch_now : Int) (i : Nat) (hi : i < (thresholds epoch_now).length)
    (n : Node) (hn : n ∈ nodes)
    (hq : ((thresholds epoch_now).get ⟨i, hi⟩).2 ≤ n.last_seen)
    (hpf : toPfx n.address = none) :
    ((compare_asmaps toPfx asmap_prev asmap_cur nodes age epoch_now).2).isSome ∧
      (compare_asmaps toPfx asmap_prev asmap_cur nodes age epoch_now).1.length ≤ i := by
  simp only [compare_asmaps]
  exact runHorizons_aborts hn hpf (thresholds epoch_now) i hi hq

theorem unparseable_address_aborts_witness :
    Node.mk 0 "x" 0 ∈ [Node.mk 0 "x" 0] ∧
    ((thresholds 0).get ⟨0, by decide⟩).2 ≤ (Node.mk 0 "x" 0).last_seen ∧
    (fun _ => none : String → Option Pfx) (Node.mk 0 "x" 0).address = none ∧
    (((compare_asmaps (fun _ => none) (fun _ => none) (fun _ => none)
        [Node.mk 0 "x" 0] 0 0).2).isSome ∧
      (compare_asmaps (fun _ => none) (fun _ => none) (fun _ => none)
        [Node.mk 0 "x" 0] 0 0).1.length ≤ 0) :=
  ⟨List.mem_cons_self _ _, by decide, rfl,
    unparseable_address_aborts (fun _ => none) (fun _ => none) (fun _ => none)
      [Node.mk 0 "x" 0] 0 0 0 (by decide) (Node.mk 0 "x" 0)
      (List.mem_cons_self _ _) (by decide) rfl⟩

end AsmapDiff
